import Mathlib

/-!
# RedProof — verification of the spec against a shallow embedding of the code

This file embeds the core pipeline of the RedProof repository in Lean 4:

* `statements/src/parser.rs` and `statements/src/lib.rs` — the statement
  expression language (tokenizer, parsers, AST);
* `prover/src/capture.rs` — HTTP response parsing and canonicalization;
* `prover/src/evaluate.rs` — statement evaluation against a capture record;
* `prover/src/commit.rs` — commitment building;
* `artifact/src/lib.rs` — the artifact data model and structural validation;
* `verifier/src/main.rs` — artifact verification.

Modelling conventions:

* Rust `String` / `&str` / `Vec<u8>` values are modelled as `List Nat`
  (their UTF-8 / raw bytes).  `String::from_utf8_lossy` is modelled as the
  identity on bytes: it is byte-transparent on all valid UTF-8 (in
  particular on all ASCII, which every claim instance uses), and its
  replacement of invalid sequences never creates or removes the CR, LF,
  colon or space bytes that the parsers dispatch on.
* `str::trim` (Unicode whitespace) is modelled as trimming the ASCII
  whitespace bytes.
* The external cryptographic hash primitives (`sha2::Sha256`,
  `blake3::hash`) and the external regex engine are not code of this
  repository; they are taken as explicit function parameters (`sha256`,
  `blake3`, `rx`) of the definitions that call them, so every theorem
  quantifies over them.  Everything the claims assert depends only on the
  dispatch and plumbing around those primitives, never on their values.
* Base64 (the `base64` crate's `STANDARD` engine: padded, canonical,
  trailing bits rejected) is modelled concretely by `b64encode` /
  `b64decode`.
-/

deriving instance DecidableEq for Except

namespace RedProof

/-! ## Byte-level string utilities -/

/-- ASCII whitespace bytes (the ASCII fragment of Rust's `char::is_whitespace`,
used by `str::trim`). -/
def isWsByte (b : Nat) : Bool :=
  b = 9 || b = 10 || b = 11 || b = 12 || b = 13 || b = 32

/-- Model of `str::trim`: drop leading and trailing whitespace bytes. -/
def asciiTrim (l : List Nat) : List Nat :=
  ((l.dropWhile isWsByte).reverse.dropWhile isWsByte).reverse

/-- Model of `u8::to_ascii_lowercase`. -/
def lowerByte (b : Nat) : Nat :=
  if 65 ≤ b ∧ b ≤ 90 then b + 32 else b

/-- Model of `str::to_ascii_lowercase`. -/
def lowerBytes (l : List Nat) : List Nat := l.map lowerByte

/-- Model of `str::eq_ignore_ascii_case` (equality after ASCII lowercasing of
every byte, which is exactly Rust's bytewise case-insensitive comparison). -/
def eqIgnoreAsciiCase (a b : List Nat) : Bool :=
  lowerBytes a = lowerBytes b

/-- The bytes of an ASCII string literal; used to embed the string constants
of the source. -/
def ascii (s : String) : List Nat := s.data.map Char.toNat

/-- Byte-lexicographic order on byte strings: the order `Ord`/`cmp` gives Rust
`String`s (bytewise comparison; on valid UTF-8 this coincides with code-point
order). -/
def lexLe : List Nat → List Nat → Bool
  | [], _ => true
  | _ :: _, [] => false
  | a :: as', b :: bs' => decide (a < b) || (decide (a = b) && lexLe as' bs')

theorem lexLe_total : ∀ a b : List Nat, lexLe a b = true ∨ lexLe b a = true := by
  intro a
  induction a with
  | nil => intro b; left; rfl
  | cons x xs ih =>
    intro b
    cases b with
    | nil => right; rfl
    | cons y ys =>
      rcases Nat.lt_trichotomy x y with h | h | h
      · left; simp [lexLe, h]
      · subst h
        rcases ih ys with h2 | h2
        · left; simp [lexLe, h2]
        · right; simp [lexLe, h2]
      · right; simp [lexLe, h]

theorem lexLe_trans : ∀ a b c : List Nat,
    lexLe a b = true → lexLe b c = true → lexLe a c = true := by
  intro a
  induction a with
  | nil => intro b c _ _; rfl
  | cons x xs ih =>
    intro b c hab hbc
    cases b with
    | nil => simp [lexLe] at hab
    | cons y ys =>
      cases c with
      | nil => simp [lexLe] at hbc
      | cons z zs =>
        simp only [lexLe, Bool.or_eq_true, Bool.and_eq_true, decide_eq_true_eq] at hab hbc ⊢
        rcases hab with h1 | ⟨rfl, h1⟩
        · rcases hbc with h2 | ⟨rfl, h2⟩
          · exact Or.inl (Nat.lt_trans h1 h2)
          · exact Or.inl h1
        · rcases hbc with h2 | ⟨rfl, h2⟩
          · exact Or.inl h2
          · exact Or.inr ⟨rfl, ih ys zs h1 h2⟩

theorem lexLe_antisymm : ∀ a b : List Nat,
    lexLe a b = true → lexLe b a = true → a = b := by
  intro a
  induction a with
  | nil =>
    intro b _ hba
    cases b with
    | nil => rfl
    | cons y ys => simp [lexLe] at hba
  | cons x xs ih =>
    intro b hab hba
    cases b with
    | nil => simp [lexLe] at hab
    | cons y ys =>
      simp only [lexLe, Bool.or_eq_true, Bool.and_eq_true, decide_eq_true_eq] at hab hba
      rcases hab with h1 | ⟨rfl, h1⟩
      · rcases hba with h2 | ⟨h2, _⟩
        · exact absurd (Nat.lt_trans h1 h2) (Nat.lt_irrefl x)
        · exact absurd h1 (by omega)
      · rcases hba with h2 | ⟨_, h2⟩
        · exact absurd h2 (Nat.lt_irrefl x)
        · exact congrArg (x :: ·) (ih ys h1 h2)

/-! ## Statement language: AST (`statements/src/lib.rs`) -/

/-- `HashAlgorithm` from `statements/src/lib.rs`. -/
inductive HashAlgorithm where
  | sha256
  | blake3
deriving DecidableEq, Repr

/-- `RegexScope` from `statements/src/lib.rs`. -/
inductive RegexScope where
  | headers
  | body
  | any
deriving DecidableEq, Repr

/-- `Statement` from `statements/src/lib.rs`.  The Rust enum is
`#[non_exhaustive]`, but the current code declares exactly these variants;
the `_ =>` fallback arm of the evaluator is unreachable today. -/
inductive Statement where
  | headerPresent (target : List Nat)
  | headerAbsent (target : List Nat)
  | headerEquals (target expected : List Nat) (case_sensitive : Option Bool)
  | hashEquals (algorithm : HashAlgorithm) (digest : List Nat)
  | regex (pattern : List Nat) (scope : RegexScope) (case_sensitive : Bool)
deriving DecidableEq, Repr

/-- `StatementParseError` from `statements/src/parser.rs` (the `&'static str`
payloads of `ExpectedFormat` / `UnexpectedSegments` and the `String` payloads
are not needed by any claim and are dropped). -/
inductive StatementParseError where
  | emptyExpression
  | emptyToken
  | unbalancedQuotes
  | danglingEscape
  | unknownKind
  | unknownHeaderAction
  | missingValue
  | unsupportedHashOperation
  | unsupportedHashAlgorithm
  | invalidScope
  | invalidBoolean
  | expectedFormat
  | unexpectedSegments
deriving DecidableEq, Repr

/-! ## Statement language: tokenizer (`statements/src/parser.rs`, `tokenize`) -/

/-- The mutable state of the `tokenize` loop. -/
structure TokState where
  fields : List (List Nat)
  buf : List Nat
  in_quotes : Bool
  escaping : Bool
deriving Repr

/-- One iteration of the `for ch in trimmed.chars()` loop of `tokenize`. -/
def tokStep (st : TokState) (c : Nat) : TokState :=
  if st.escaping then
    { st with buf := st.buf ++ [c], escaping := false }
  else if c = 92 ∧ st.in_quotes then
    { st with escaping := true }
  else if c = 34 then
    { st with in_quotes := !st.in_quotes }
  else if c = 58 ∧ !st.in_quotes then
    { st with fields := st.fields ++ [asciiTrim st.buf], buf := [] }
  else
    { st with buf := st.buf ++ [c] }

/-- `tokenize` from `statements/src/parser.rs`. -/
def tokenize (input : List Nat) : Except StatementParseError (List (List Nat)) :=
  let trimmed := asciiTrim input
  if trimmed = [] then .ok []
  else
    let st := trimmed.foldl tokStep ⟨[], [], false, false⟩
    if st.in_quotes then .error .unbalancedQuotes
    else if st.escaping then .error .danglingEscape
    else
      let fields := st.fields ++ [asciiTrim st.buf]
      if fields.any (fun f => f.isEmpty) then .error .emptyToken
      else .ok fields

/-! ## Statement language: parsers (`statements/src/parser.rs`) -/

/-- `require_value` from `statements/src/parser.rs`. -/
def require_value (value : List Nat) : Except StatementParseError (List Nat) :=
  if asciiTrim value = [] then .error .missingValue else .ok value

/-- `parse_header` from `statements/src/parser.rs`. -/
def parse_header (parts : List (List Nat)) : Except StatementParseError Statement :=
  match parts with
  | [] => .error .missingValue
  | p0 :: rest =>
    let action := lowerBytes p0
    if action = ascii "present" then
      match rest with
      | [p1] => do
        let t ← require_value p1
        .ok (.headerPresent t)
      | _ => .error .expectedFormat
    else if action = ascii "absent" then
      match rest with
      | [p1] => do
        let t ← require_value p1
        .ok (.headerAbsent t)
      | _ => .error .expectedFormat
    else if action = ascii "eq" then
      match rest with
      | [p1, p2] => do
        let t ← require_value p1
        let e ← require_value p2
        .ok (.headerEquals t e none)
      | _ => .error .expectedFormat
    else .error .unknownHeaderAction

/-- `HashAlgorithm::from_str` from `statements/src/parser.rs`. -/
def hashAlgorithmFromStr (s : List Nat) : Option HashAlgorithm :=
  if lowerBytes s = ascii "sha256" then some .sha256
  else if lowerBytes s = ascii "blake3" then some .blake3
  else none

/-- `parse_hash` from `statements/src/parser.rs`. -/
def parse_hash (parts : List (List Nat)) : Except StatementParseError Statement :=
  match parts with
  | [p0, p1, p2] =>
    if eqIgnoreAsciiCase p0 (ascii "eq") then
      match hashAlgorithmFromStr p1 with
      | none => .error .unsupportedHashAlgorithm
      | some algorithm => do
        let d ← require_value p2
        .ok (.hashEquals algorithm d)
    else .error .unsupportedHashOperation
  | _ => .error .expectedFormat

/-- `parse_scope` from `statements/src/parser.rs`. -/
def parse_scope (value : List Nat) : Except StatementParseError RegexScope :=
  if lowerBytes value = ascii "headers" then .ok .headers
  else if lowerBytes value = ascii "body" then .ok .body
  else if lowerBytes value = ascii "any" then .ok .any
  else .error .invalidScope

/-- `parse_bool` from `statements/src/parser.rs`. -/
def parse_bool (value : List Nat) : Except StatementParseError Bool :=
  if lowerBytes value = ascii "true" ∨ lowerBytes value = ascii "1"
      ∨ lowerBytes value = ascii "yes" then .ok true
  else if lowerBytes value = ascii "false" ∨ lowerBytes value = ascii "0"
      ∨ lowerBytes value = ascii "no" then .ok false
  else .error .invalidBoolean

/-- `matches_scope_name` from `statements/src/parser.rs`. -/
def matches_scope_name (token : List Nat) : Bool :=
  lowerBytes token = ascii "headers" || lowerBytes token = ascii "body"
    || lowerBytes token = ascii "any"

/-- Model of `str::strip_prefix`: `some` of the remainder when the pattern
leads the string. -/
def takeAfter : List Nat → List Nat → Option (List Nat)
  | [], l => some l
  | _ :: _, [] => none
  | p :: ps, x :: xs => if p = x then takeAfter ps xs else none

/-- The `while idx < parts.len() - 1` loop of `parse_regex`, together with the
code after it.  The list argument is `parts[idx..]`; the loop body runs while
at least two elements remain, and the element the loop stops at is the
pattern.  A `break` with more than one element remaining reaches the
`idx != parts.len() - 1` check and fails with `UnexpectedSegments` (after the
`pattern.is_empty()` check, which reads the element the loop stopped at). -/
def parseRegexLoop : List (List Nat) → RegexScope → Bool →
    Except StatementParseError Statement
  | [], _, _ => .error .missingValue
  | [p], scope, cs =>
    if p = [] then .error .missingValue
    else .ok (.regex p scope cs)
  | p :: rest :: more, scope, cs =>
    match takeAfter (ascii "scope=") p with
    | some v => do
      let s ← parse_scope v
      parseRegexLoop (rest :: more) s cs
    | none =>
      match takeAfter (ascii "case_sensitive=") p with
      | some v => do
        let b ← parse_bool v
        parseRegexLoop (rest :: more) scope b
      | none =>
        if matches_scope_name p then do
          let s ← parse_scope p
          parseRegexLoop (rest :: more) s cs
        else if p = [] then .error .missingValue
        else .error .unexpectedSegments

/-- `parse_regex` from `statements/src/parser.rs`. -/
def parse_regex (parts : List (List Nat)) : Except StatementParseError Statement :=
  match parts with
  | [] => .error .missingValue
  | _ => parseRegexLoop parts .any false

/-- `parse_statement` from `statements/src/parser.rs`. -/
def parse_statement (input : List Nat) : Except StatementParseError Statement := do
  let parts ← tokenize input
  match parts with
  | [] => .error .emptyExpression
  | p0 :: rest =>
    let kind := lowerBytes p0
    if kind = ascii "header" then parse_header rest
    else if kind = ascii "hash" then parse_hash rest
    else if kind = ascii "regex" then parse_regex rest
    else .error .unknownKind

/-! ## HTTP responses (`prover/src/capture.rs`) -/

/-- `HeaderEntry` from `prover/src/capture.rs`. -/
structure HeaderEntry where
  name : List Nat
  value : List Nat
deriving DecidableEq, Repr

/-- `HttpResponse` from `prover/src/capture.rs`. -/
structure HttpResponse where
  http_version : List Nat
  status_code : Nat
  reason : List Nat
  headers : List HeaderEntry
  body : List Nat
  body_truncated : Bool
deriving DecidableEq, Repr

/-- The comparator of `header_entries.sort_by(|a, b| a.name.cmp(&b.name))`. -/
def nameLe (a b : HeaderEntry) : Prop := lexLe a.name b.name = true

instance : DecidableRel nameLe := fun a b => by
  unfold nameLe; infer_instance

instance : IsTotal HeaderEntry nameLe :=
  ⟨fun a b => lexLe_total a.name b.name⟩

instance : IsTrans HeaderEntry nameLe :=
  ⟨fun a b c => lexLe_trans a.name b.name c.name⟩

/-- Model of the stable `slice::sort_by` call on header entries.  Rust's
`sort_by` is stable; `List.insertionSort` with a `≤`-style relation is the
canonical stable sort, so the two agree on every input. -/
def sortHeaders (l : List HeaderEntry) : List HeaderEntry :=
  l.insertionSort nameLe

/-- `HeaderMap = BTreeMap<String, Vec<String>>` from `prover/src/evaluate.rs`,
modelled as an association list with strictly increasing keys (the order a
`BTreeMap` iterates in, so that equality of models coincides with equality of
maps). -/
def HeaderMap := List (List Nat × List (List Nat))

instance : DecidableEq HeaderMap := by
  unfold HeaderMap; infer_instance

/-- `map.entry(name).or_default().push(value)`: append `v` to the entry of
key `k`, inserting the key at its ordered position if absent. -/
def mapInsert (k v : List Nat) : HeaderMap → HeaderMap
  | [] => [(k, [v])]
  | (k', vs) :: rest =>
    if k = k' then (k', vs ++ [v]) :: rest
    else if lexLe k k' then (k, [v]) :: (k', vs) :: rest
    else (k', vs) :: mapInsert k v rest

/-- `BTreeMap::get`. -/
def mapGet (k : List Nat) : HeaderMap → Option (List (List Nat))
  | [] => none
  | (k', vs) :: rest => if k = k' then some vs else mapGet k rest

/-- `BTreeMap::contains_key`. -/
def mapContains (k : List Nat) (m : HeaderMap) : Bool :=
  (mapGet k m).isSome

/-- Errors of `parse_http_response` / `parse_status_line` (`anyhow` messages
in the source). -/
inductive HttpParseError where
  | malformedResponse
  | missingStatusLine
  | missingStatusCode
  | invalidStatusCode
deriving DecidableEq, Repr

/-- `find_header_split` from `prover/src/capture.rs`:
`raw.windows(4).position(|w| w == b"\r\n\r\n")` — the first index at which
the four bytes CR LF CR LF start (`none` when there is no such window). -/
def find_header_split : List Nat → Option Nat
  | [] => none
  | x :: rest =>
    if (x :: rest).take 4 = [13, 10, 13, 10] then some 0
    else (find_header_split rest).map (· + 1)

/-- `str::split("\r\n")`: split on every (left-to-right, non-overlapping)
occurrence of CR LF.  Always returns at least one piece. -/
def splitCRLF : List Nat → List (List Nat)
  | [] => [[]]
  | [c] => [[c]]
  | c :: d :: rest =>
    if c = 13 ∧ d = 10 then [] :: splitCRLF rest
    else
      match splitCRLF (d :: rest) with
      | h :: t => (c :: h) :: t
      | [] => [[c]]

/-- Split a byte string at the first occurrence of `sep`, keeping the rest
(`none` when `sep` does not occur); the building block for `splitn(3, ' ')`. -/
def splitAtByte (sep : Nat) : List Nat → List Nat × Option (List Nat)
  | [] => ([], none)
  | c :: rest =>
    if c = sep then ([], some rest)
    else
      let p := splitAtByte sep rest
      (c :: p.1, p.2)

/-- Model of `str::parse::<u16>`: an optional leading `+`, then one or more
ASCII digits, value below 2^16 (Rust fails on overflow). -/
def parseU16 (l : List Nat) : Option Nat :=
  let core := match l with
    | 43 :: rest => rest
    | _ => l
  if core = [] then none
  else if core.all (fun b => 48 ≤ b ∧ b ≤ 57) then
    let v := core.foldl (fun acc b => acc * 10 + (b - 48)) 0
    if v < 65536 then some v else none
  else none

/-- `parse_status_line` from `prover/src/capture.rs`: `splitn(3, ' ')`, the
version token is whatever comes first (possibly empty), the second token must
parse as `u16`, the rest (if any) is the reason phrase. -/
def parse_status_line (line : List Nat) :
    Except HttpParseError (List Nat × Nat × List Nat) :=
  let p1 := splitAtByte 32 line
  match p1.2 with
  | none => .error .missingStatusCode
  | some rest =>
    let p2 := splitAtByte 32 rest
    match parseU16 p2.1 with
    | none => .error .invalidStatusCode
    | some code =>
      .ok (p1.1, code, match p2.2 with | none => [] | some r => r)

/-- The body of the header loop of `parse_http_response`: lines whose trim is
empty are skipped, lines without a colon are skipped, otherwise the line is
split at the first colon, the name is trimmed and lowercased and the value
trimmed. -/
def entryOfLine (line : List Nat) : Option HeaderEntry :=
  if asciiTrim line = [] then none
  else
    let p := splitAtByte 58 line
    match p.2 with
    | some value => some ⟨lowerBytes (asciiTrim p.1), asciiTrim value⟩
    | none => none

/-- `parse_http_response` from `prover/src/capture.rs`.  Returns the
response, the sorted header list and the header map, as the source does. -/
def parse_http_response (raw : List Nat) (max_body_bytes : Nat) :
    Except HttpParseError (HttpResponse × List HeaderEntry × HeaderMap) :=
  match find_header_split raw with
  | none => .error .malformedResponse
  | some split =>
    let header_bytes := raw.take split
    let body := raw.drop (split + 4)
    match splitCRLF header_bytes with
    | [] => .error .missingStatusLine
    | status_line :: rest_lines =>
      match parse_status_line status_line with
      | .error e => .error e
      | .ok (http_version, status_code, reason) =>
        let header_entries := sortHeaders (rest_lines.filterMap entryOfLine)
        let header_map := header_entries.foldl
          (fun m e => mapInsert e.name e.value m) []
        let body_vec := if body.length > max_body_bytes
          then body.take max_body_bytes else body
        let truncated := decide (body.length > max_body_bytes)
        .ok (⟨http_version, status_code, reason, header_entries,
              body_vec, truncated⟩, header_entries, header_map)

/-! ## C10: status-line parsing -/

theorem splitAtByte_not_mem {sep : Nat} : ∀ {l : List Nat}, sep ∉ l →
    splitAtByte sep l = (l, none) := by
  intro l
  induction l with
  | nil => intro _; rfl
  | cons c rest ih =>
    intro h
    have hc : ¬c = sep := fun hc => h (hc ▸ List.mem_cons_self c rest)
    simp [splitAtByte, hc, ih (fun hm => h (List.mem_cons_of_mem c hm))]

theorem splitAtByte_append {sep : Nat} : ∀ {v : List Nat} (c : List Nat), sep ∉ v →
    splitAtByte sep (v ++ sep :: c) = (v, some c) := by
  intro v
  induction v with
  | nil => intro c _; simp [splitAtByte]
  | cons x xs ih =>
    intro c h
    have hx : ¬x = sep := fun hx => h (hx ▸ List.mem_cons_self x xs)
    simp [splitAtByte, hx, ih c (fun hm => h (List.mem_cons_of_mem x hm))]

/-- C10: a status line made of a version token and a valid `u16` status code,
with no reason phrase, parses successfully with the reason set to the empty
string; and status-line parsing fails exactly when the status-code token is
missing (no space in the line) or does not parse as a `u16`. -/
theorem parse_status_line_spec :
    (∀ (v c : List Nat) (n : Nat), 32 ∉ v → 32 ∉ c → parseU16 c = some n →
      parse_status_line (v ++ 32 :: c) = .ok (v, n, [])) ∧
    (∀ line : List Nat, (∃ e, parse_status_line line = .error e) ↔
      ((splitAtByte 32 line).2 = none ∨
        ∃ rest, (splitAtByte 32 line).2 = some rest ∧
          parseU16 (splitAtByte 32 rest).1 = none)) := by
  constructor
  · intro v c n hv hc hparse
    unfold parse_status_line
    rw [splitAtByte_append c hv]
    simp only
    rw [splitAtByte_not_mem hc]
    simp [hparse]
  · intro line
    unfold parse_status_line
    rcases h1 : (splitAtByte 32 line).2 with _ | rest
    · simp [h1]
    · rcases h2 : parseU16 (splitAtByte 32 rest).1 with _ | code <;> simp [h1, h2]

/-- Witness for `parse_status_line_spec`: `HTTP/1.1 204` parses with an empty
reason, and `HTTP/1.1` alone fails for the missing status-code token. -/
theorem parse_status_line_spec_witness :
    parse_status_line (ascii "HTTP/1.1 204") = .ok (ascii "HTTP/1.1", 204, []) ∧
      (∃ e, parse_status_line (ascii "HTTP/1.1") = .error e) :=
  ⟨parse_status_line_spec.1 (ascii "HTTP/1.1") (ascii "204") 204
      (by decide) (by decide) (by decide),
   (parse_status_line_spec.2 (ascii "HTTP/1.1")).2 (by decide)⟩

/-! ## C5: body truncation -/

/-- C5: when the body (the bytes after the header/body delimiter) is longer
than `max_body_bytes`, the stored body is exactly its first `max_body_bytes`
bytes (so has length exactly `max_body_bytes`) and the truncation flag is
set; otherwise the body is stored whole and the flag is clear. -/
theorem parse_http_response_body_cap (raw : List Nat) (maxB split : Nat)
    (resp : HttpResponse) (hs : List HeaderEntry) (m : HeaderMap)
    (hsplit : find_header_split raw = some split)
    (hok : parse_http_response raw maxB = .ok (resp, hs, m)) :
    ((raw.drop (split + 4)).length > maxB →
      resp.body = (raw.drop (split + 4)).take maxB ∧
        resp.body.length = maxB ∧ resp.body_truncated = true) ∧
    ((raw.drop (split + 4)).length ≤ maxB →
      resp.body = raw.drop (split + 4) ∧ resp.body_truncated = false) := by
  unfold parse_http_response at hok
  rw [hsplit] at hok
  simp only at hok
  split at hok
  · exact absurd hok (by simp)
  · split at hok
    · exact absurd hok (by simp)
    · rw [Except.ok.injEq] at hok
      have hresp : _ = resp := congrArg (fun p => p.1) hok
      constructor
      · intro hlong
        rw [← hresp]
        dsimp only
        have hlong' : maxB < raw.length - (split + 4) := by simpa using hlong
        refine ⟨by simp [hlong'], ?_, by simp [hlong']⟩
        rw [if_pos hlong, List.length_take]
        simp only [List.length_drop] at hlong ⊢
        omega
      · intro hshort
        rw [← hresp]
        dsimp only
        have hng' : ¬(maxB < raw.length - (split + 4)) := by
          simp only [List.length_drop] at hshort
          omega
        exact ⟨by simp [hng'], by simp [hng']⟩

/-- Witness for `parse_http_response_body_cap`, at the source's own
truncation test: body `Hello body` capped at 4 bytes. -/
theorem parse_http_response_body_cap_witness :
    ((ascii "HTTP/1.1 200 OK\r\nServer: Example\r\n\r\nHello body").drop
        (32 + 4)).length > 4 ∧
      (⟨ascii "HTTP/1.1", 200, ascii "OK",
          [⟨ascii "server", ascii "Example"⟩], ascii "Hell", true⟩ :
            HttpResponse).body =
        ((ascii "HTTP/1.1 200 OK\r\nServer: Example\r\n\r\nHello body").drop
          (32 + 4)).take 4 := by
  refine ⟨by decide, ?_⟩
  exact (parse_http_response_body_cap
    (ascii "HTTP/1.1 200 OK\r\nServer: Example\r\n\r\nHello body") 4 32
    ⟨ascii "HTTP/1.1", 200, ascii "OK",
      [⟨ascii "server", ascii "Example"⟩], ascii "Hell", true⟩
    [⟨ascii "server", ascii "Example"⟩]
    [(ascii "server", [ascii "Example"])]
    (by decide) (by decide)).1 (by decide) |>.1

/-! ## C9: colon-free header lines are silently skipped

The helper lemmas locate the header/body delimiter and recover the header
lines of a raw response assembled from a status line, a list of header lines
and a body, so that inserting a header line can be reasoned about at the
line level. -/

/-- The header block of a wire response: each line preceded by CR LF. -/
def joinHeaderLines : List (List Nat) → List Nat
  | [] => []
  | l :: ls => 13 :: 10 :: (l ++ joinHeaderLines ls)

/-- A raw HTTP/1.1 response: status line, header lines, blank line, body. -/
def assembleRaw (status : List Nat) (lines : List (List Nat)) (body : List Nat) :
    List Nat :=
  status ++ joinHeaderLines lines ++ 13 :: 10 :: 13 :: 10 :: body

theorem find_header_split_cons_ne {x : Nat} (l : List Nat) (hx : x ≠ 13) :
    find_header_split (x :: l) = (find_header_split l).map (· + 1) := by
  have hnp : ¬((x :: l).take 4 = [13, 10, 13, 10]) := by
    intro h
    rw [List.take_succ_cons] at h
    exact hx (List.cons.inj h).1
  simp only [find_header_split, hnp, if_false, ite_false]

theorem find_header_split_append {s : List Nat} (t : List Nat)
    (hs : ∀ b ∈ s, b ≠ 13) :
    find_header_split (s ++ t) = (find_header_split t).map (s.length + ·) := by
  induction s with
  | nil =>
    rcases h : find_header_split t with _ | n <;> simp [h]
  | cons x xs ih =>
    have hx : x ≠ 13 := hs x (List.mem_cons_self x xs)
    rw [List.cons_append, find_header_split_cons_ne _ hx,
      ih (fun b hb => hs b (List.mem_cons_of_mem x hb)), Option.map_map]
    rcases h : find_header_split t with _ | n <;>
      simp [h, Function.comp, Nat.add_comm, Nat.add_assoc, Nat.add_left_comm]

theorem find_header_split_crlf_step {c : Nat} (t : List Nat) (hc : c ≠ 13) :
    find_header_split (13 :: 10 :: c :: t) =
      (find_header_split (c :: t)).map (· + 2) := by
  have h1 : ¬(((13 : Nat) :: 10 :: c :: t).take 4 = [13, 10, 13, 10]) := by
    intro h
    rw [List.take_succ_cons, List.take_succ_cons, List.take_succ_cons] at h
    exact hc (List.cons.inj (List.cons.inj (List.cons.inj h).2).2).1
  rw [show find_header_split (13 :: 10 :: c :: t) =
      if ((13 : Nat) :: 10 :: c :: t).take 4 = [13, 10, 13, 10] then some 0
      else (find_header_split (10 :: c :: t)).map (· + 1) from rfl,
    if_neg h1, find_header_split_cons_ne _ (by decide), Option.map_map]
  rcases h : find_header_split (c :: t) with _ | n <;> simp [h, Function.comp]

theorem find_header_split_join (body : List Nat) : ∀ (lines : List (List Nat)),
    (∀ l ∈ lines, l ≠ [] ∧ (13 : Nat) ∉ l) →
    find_header_split (joinHeaderLines lines ++ 13 :: 10 :: 13 :: 10 :: body) =
      some (joinHeaderLines lines).length := by
  intro lines
  induction lines with
  | nil =>
    intro _
    show find_header_split (13 :: 10 :: 13 :: 10 :: body) = some 0
    simp [find_header_split]
  | cons l ls ih =>
    intro h
    obtain ⟨hne, h13⟩ := h l (List.mem_cons_self l ls)
    have hrec := ih (fun x hx => h x (List.mem_cons_of_mem l hx))
    rcases l with _ | ⟨c, l'⟩
    · exact absurd rfl hne
    · have hc : c ≠ 13 := fun hcc => h13 (hcc ▸ List.mem_cons_self c l')
      have hshape : joinHeaderLines ((c :: l') :: ls) ++ 13 :: 10 :: 13 :: 10 :: body =
          13 :: 10 :: c :: (l' ++ (joinHeaderLines ls ++ 13 :: 10 :: 13 :: 10 :: body)) := by
        simp [joinHeaderLines, List.append_assoc]
      rw [hshape, find_header_split_crlf_step _ hc,
        show c :: (l' ++ (joinHeaderLines ls ++ 13 :: 10 :: 13 :: 10 :: body)) =
          (c :: l') ++ (joinHeaderLines ls ++ 13 :: 10 :: 13 :: 10 :: body) from rfl,
        find_header_split_append _ (fun b hb heq => h13 (heq ▸ hb)), hrec]
      simp [joinHeaderLines, List.length_append]
      omega

theorem splitCRLF_no13 : ∀ (s : List Nat), (∀ b ∈ s, b ≠ 13) → splitCRLF s = [s]
  | [], _ => rfl
  | [_], _ => rfl
  | c :: d :: rest, h => by
    have hc : ¬(c = 13 ∧ d = 10) := fun hp => h c (by simp) hp.1
    have ihr := splitCRLF_no13 (d :: rest) (fun b hb => h b (List.mem_cons_of_mem c hb))
    simp only [splitCRLF, hc, if_false, ite_false, ihr]

theorem splitCRLF_sep : ∀ (s t : List Nat), (∀ b ∈ s, b ≠ 13) →
    splitCRLF (s ++ 13 :: 10 :: t) = s :: splitCRLF t
  | [], t, _ => by simp [splitCRLF]
  | [c], t, h => by
    have hc : ¬(c = 13 ∧ (13 : Nat) = 10) := by simp
    have hin : splitCRLF (13 :: 10 :: t) = [] :: splitCRLF t := by
      rw [show splitCRLF (13 :: 10 :: t) =
          if (13 : Nat) = 13 ∧ (10 : Nat) = 10 then [] :: splitCRLF t
          else match splitCRLF (10 :: t) with
            | h :: t' => (13 :: h) :: t'
            | [] => [[13]] from rfl,
        if_pos ⟨rfl, rfl⟩]
    show (if c = 13 ∧ (13 : Nat) = 10 then [] :: splitCRLF (10 :: t)
      else match splitCRLF (13 :: 10 :: t) with
        | h :: t' => (c :: h) :: t'
        | [] => [[c]]) = [c] :: splitCRLF t
    rw [if_neg hc, hin]
  | c :: c2 :: s', t, h => by
    have hc : ¬(c = 13 ∧ c2 = 10) := fun hp => h c (by simp) hp.1
    have ihr : splitCRLF (c2 :: (s' ++ 13 :: 10 :: t)) = (c2 :: s') :: splitCRLF t := by
      simpa only [List.cons_append] using
        splitCRLF_sep (c2 :: s') t (fun b hb => h b (List.mem_cons_of_mem c hb))
    show (if c = 13 ∧ c2 = 10 then [] :: splitCRLF (s' ++ 13 :: 10 :: t)
      else match splitCRLF (c2 :: (s' ++ 13 :: 10 :: t)) with
        | h :: t' => (c :: h) :: t'
        | [] => [[c]]) = (c :: c2 :: s') :: splitCRLF t
    rw [if_neg hc, ihr]

theorem splitCRLF_join : ∀ (lines : List (List Nat)) (status : List Nat),
    (∀ b ∈ status, b ≠ 13) → (∀ l ∈ lines, ∀ b ∈ l, b ≠ 13) →
    splitCRLF (status ++ joinHeaderLines lines) = status :: lines := by
  intro lines
  induction lines with
  | nil =>
    intro status hs _
    simp only [joinHeaderLines, List.append_nil]
    exact splitCRLF_no13 status hs
  | cons l ls ih =>
    intro status hs hl
    rw [show joinHeaderLines (l :: ls) = 13 :: 10 :: (l ++ joinHeaderLines ls) from rfl,
      splitCRLF_sep status _ hs]
    exact congrArg (status :: ·)
      (ih l (hl l (List.mem_cons_self l ls))
        (fun l' h' => hl l' (List.mem_cons_of_mem l h')))

theorem entryOfLine_no_colon {L : List Nat} (hc : (58 : Nat) ∉ L) :
    entryOfLine L = none := by
  unfold entryOfLine
  by_cases ht : asciiTrim L = []
  · simp [ht]
  · simp [ht, splitAtByte_not_mem hc]

/-- The position of the header/body delimiter in an assembled raw response
whose status line and header lines are CR-free and whose header lines are
nonempty. -/
theorem find_header_split_assembleRaw (status body : List Nat)
    (lines : List (List Nat)) (hstatus : (13 : Nat) ∉ status)
    (hlines : ∀ l ∈ lines, l ≠ [] ∧ (13 : Nat) ∉ l) :
    find_header_split (assembleRaw status lines body) =
      some ((status ++ joinHeaderLines lines).length) := by
  unfold assembleRaw
  rw [List.append_assoc,
    find_header_split_append _ (fun b hb heq => hstatus (heq ▸ hb)),
    find_header_split_join body lines hlines]
  simp [List.length_append]

/-- C9: a header line containing no colon is silently skipped: parsing a raw
response containing it gives exactly the same result — response, sorted
header list and header map — as parsing the raw response without it, and in
particular it never causes parsing to fail. -/
theorem parse_http_response_skips_colonless (status L body : List Nat)
    (pre post : List (List Nat)) (maxB : Nat)
    (hstatus : (13 : Nat) ∉ status)
    (hpre : ∀ l ∈ pre, l ≠ [] ∧ (13 : Nat) ∉ l)
    (hpost : ∀ l ∈ post, l ≠ [] ∧ (13 : Nat) ∉ l)
    (hL13 : (13 : Nat) ∉ L) (hLne : L ≠ []) (hLcolon : (58 : Nat) ∉ L) :
    parse_http_response (assembleRaw status (pre ++ L :: post) body) maxB =
      parse_http_response (assembleRaw status (pre ++ post) body) maxB := by
  have hall1 : ∀ l ∈ pre ++ L :: post, l ≠ [] ∧ (13 : Nat) ∉ l := by
    intro l hl
    rcases List.mem_append.mp hl with h | h
    · exact hpre l h
    · rcases List.mem_cons.mp h with rfl | h
      · exact ⟨hLne, hL13⟩
      · exact hpost l h
  have hall2 : ∀ l ∈ pre ++ post, l ≠ [] ∧ (13 : Nat) ∉ l := by
    intro l hl
    rcases List.mem_append.mp hl with h | h
    · exact hpre l h
    · exact hpost l h
  have hcr1 : ∀ l ∈ pre ++ L :: post, ∀ b ∈ l, b ≠ 13 :=
    fun l hl b hb heq => (hall1 l hl).2 (heq ▸ hb)
  have hcr2 : ∀ l ∈ pre ++ post, ∀ b ∈ l, b ≠ 13 :=
    fun l hl b hb heq => (hall2 l hl).2 (heq ▸ hb)
  have hscr : ∀ b ∈ status, b ≠ 13 := fun b hb heq => hstatus (heq ▸ hb)
  have hdrop : ∀ (lines : List (List Nat)),
      (assembleRaw status lines body).drop
        ((status ++ joinHeaderLines lines).length + 4) = body := by
    intro lines
    unfold assembleRaw
    rw [← List.drop_drop, List.drop_left]
    rfl
  have htake : ∀ (lines : List (List Nat)),
      (assembleRaw status lines body).take
        ((status ++ joinHeaderLines lines).length) =
        status ++ joinHeaderLines lines := by
    intro lines
    unfold assembleRaw
    rw [List.take_left]
  have hfm : (pre ++ L :: post).filterMap entryOfLine =
      (pre ++ post).filterMap entryOfLine := by
    rw [List.filterMap_append, List.filterMap_append, List.filterMap_cons,
      entryOfLine_no_colon hLcolon]
  unfold parse_http_response
  rw [find_header_split_assembleRaw status body _ hstatus hall1,
    find_header_split_assembleRaw status body _ hstatus hall2]
  simp only [htake, hdrop, splitCRLF_join _ status hscr hcr1,
    splitCRLF_join _ status hscr hcr2, hfm]

/-- Witness for `parse_http_response_skips_colonless`: inserting the
colon-free line `GarbageLine` leaves the parse of a small response
unchanged. -/
theorem parse_http_response_skips_colonless_witness :
    ((13 : Nat) ∉ ascii "GarbageLine" ∧ (58 : Nat) ∉ ascii "GarbageLine") ∧
      parse_http_response
          (assembleRaw (ascii "HTTP/1.1 200 OK")
            [ascii "GarbageLine", ascii "Server: Example"] (ascii "abc")) 100 =
        parse_http_response
          (assembleRaw (ascii "HTTP/1.1 200 OK")
            [ascii "Server: Example"] (ascii "abc")) 100 :=
  ⟨⟨by decide, by decide⟩,
   parse_http_response_skips_colonless (ascii "HTTP/1.1 200 OK")
     (ascii "GarbageLine") (ascii "abc") [] [ascii "Server: Example"] 100
     (by decide) (by simp) (by decide) (by decide) (by decide) (by decide)⟩

/-! ## Base64 (the `base64` crate, `general_purpose::STANDARD` engine)

Padded standard-alphabet base64; decoding is canonical: it rejects invalid
symbols, non-4-aligned lengths, misplaced padding and non-zero trailing
bits, exactly as the `STANDARD` engine's default configuration does. -/

/-- The standard base64 alphabet: sextet value to ASCII code. -/
def b64char (n : Nat) : Nat :=
  if n < 26 then 65 + n
  else if n < 52 then 71 + n
  else if n < 62 then n - 4
  else if n = 62 then 43
  else 47

/-- ASCII code back to sextet value; `=` (61) and every non-alphabet byte
are rejected. -/
def b64val (c : Nat) : Option Nat :=
  if 65 ≤ c ∧ c ≤ 90 then some (c - 65)
  else if 97 ≤ c ∧ c ≤ 122 then some (c - 71)
  else if 48 ≤ c ∧ c ≤ 57 then some (c + 4)
  else if c = 43 then some 62
  else if c = 47 then some 63
  else none

/-- `STANDARD.encode`: three bytes to four alphabet characters, the final
final short chunk padded with `=`. -/
def b64encode : List Nat → List Nat
  | [] => []
  | [a] => [b64char (a / 4), b64char (a % 4 * 16), 61, 61]
  | [a, b] => [b64char (a / 4), b64char (a % 4 * 16 + b / 16), b64char (b % 16 * 4), 61]
  | a :: b :: c :: rest =>
    b64char (a / 4) :: b64char (a % 4 * 16 + b / 16) ::
      b64char (b % 16 * 4 + c / 64) :: b64char (c % 64) :: b64encode rest

/-- `STANDARD.decode`: strict canonical decoding with required padding and
rejected non-zero trailing bits. -/
def b64decode : List Nat → Option (List Nat)
  | [] => some []
  | c1 :: c2 :: c3 :: c4 :: rest =>
    match b64val c1, b64val c2 with
    | some v1, some v2 =>
      if rest = [] then
        if c3 = 61 then
          if c4 = 61 then
            if v2 % 16 = 0 then some [v1 * 4 + v2 / 16] else none
          else none
        else
          match b64val c3 with
          | some v3 =>
            if c4 = 61 then
              if v3 % 4 = 0 then
                some [v1 * 4 + v2 / 16, v2 % 16 * 16 + v3 / 4]
              else none
            else
              match b64val c4 with
              | some v4 =>
                some [v1 * 4 + v2 / 16, v2 % 16 * 16 + v3 / 4, v3 % 4 * 64 + v4]
              | none => none
          | none => none
      else
        match b64val c3, b64val c4 with
        | some v3, some v4 =>
          match b64decode rest with
          | some tail =>
            some ((v1 * 4 + v2 / 16) :: (v2 % 16 * 16 + v3 / 4) ::
              (v3 % 4 * 64 + v4) :: tail)
          | none => none
        | _, _ => none
    | _, _ => none
  | _ => none

theorem b64char_ne_61 (n : Nat) : b64char n ≠ 61 := by
  unfold b64char
  split_ifs <;> omega

theorem b64val_b64char : ∀ n, n < 64 → b64val (b64char n) = some n := by decide

theorem b64encode_ne_nil : ∀ (a : Nat) (rest : List Nat),
    b64encode (a :: rest) ≠ []
  | _, [] => by simp [b64encode]
  | _, [_] => by simp [b64encode]
  | _, _ :: _ :: _ => by simp [b64encode]

/-- Round trip: strict decoding inverts encoding on byte strings. -/
theorem b64decode_encode : ∀ (s : List Nat), (∀ b ∈ s, b < 256) →
    b64decode (b64encode s) = some s
  | [], _ => rfl
  | [a], h => by
    have ha : a < 256 := h a (by simp)
    have hv1 : b64val (b64char (a / 4)) = some (a / 4) :=
      b64val_b64char _ (by omega)
    have hv2 : b64val (b64char (a % 4 * 16)) = some (a % 4 * 16) :=
      b64val_b64char _ (by omega)
    have hz : a % 4 * 16 % 16 = 0 := by omega
    have hval : a / 4 * 4 + a % 4 * 16 / 16 = a := by omega
    simp [b64encode, b64decode, hv1, hv2, hz, hval]
    omega
  | [a, b], h => by
    have ha : a < 256 := h a (by simp)
    have hb : b < 256 := h b (by simp)
    have hv1 : b64val (b64char (a / 4)) = some (a / 4) :=
      b64val_b64char _ (by omega)
    have hv2 : b64val (b64char (a % 4 * 16 + b / 16)) = some (a % 4 * 16 + b / 16) :=
      b64val_b64char _ (by omega)
    have hv3 : b64val (b64char (b % 16 * 4)) = some (b % 16 * 4) :=
      b64val_b64char _ (by omega)
    have hz : b % 16 * 4 % 4 = 0 := by omega
    have hval1 : a / 4 * 4 + (a % 4 * 16 + b / 16) / 16 = a := by omega
    have hval2 : (a % 4 * 16 + b / 16) % 16 * 16 + b % 16 * 4 / 4 = b := by omega
    simp [b64encode, b64decode, hv1, hv2, hv3, b64char_ne_61, hz, hval1, hval2]
    omega
  | a :: b :: c :: rest, h => by
    have ha : a < 256 := h a (by simp)
    have hb : b < 256 := h b (by simp)
    have hc : c < 256 := h c (by simp)
    have hv1 : b64val (b64char (a / 4)) = some (a / 4) :=
      b64val_b64char _ (by omega)
    have hv2 : b64val (b64char (a % 4 * 16 + b / 16)) = some (a % 4 * 16 + b / 16) :=
      b64val_b64char _ (by omega)
    have hv3 : b64val (b64char (b % 16 * 4 + c / 64)) = some (b % 16 * 4 + c / 64) :=
      b64val_b64char _ (by omega)
    have hv4 : b64val (b64char (c % 64)) = some (c % 64) :=
      b64val_b64char _ (by omega)
    have hval1 : a / 4 * 4 + (a % 4 * 16 + b / 16) / 16 = a := by omega
    have hval2 : (a % 4 * 16 + b / 16) % 16 * 16 + (b % 16 * 4 + c / 64) / 4 = b := by
      omega
    have hval3 : (b % 16 * 4 + c / 64) % 4 * 64 + c % 64 = c := by omega
    rcases rest with _ | ⟨d, rest'⟩
    · simp [b64encode, b64decode, hv1, hv2, hv3, hv4, b64char_ne_61,
        hval1, hval2, hval3]
    · have hrec := b64decode_encode (d :: rest')
        (fun x hx => h x (List.mem_cons_of_mem a
          (List.mem_cons_of_mem b (List.mem_cons_of_mem c hx))))
      have hne := b64encode_ne_nil d rest'
      rw [show b64encode (a :: b :: c :: d :: rest') =
          b64char (a / 4) :: b64char (a % 4 * 16 + b / 16) ::
            b64char (b % 16 * 4 + c / 64) :: b64char (c % 64) ::
              b64encode (d :: rest') from rfl]
      simp [b64decode, hv1, hv2, hne, hv3, hv4, hrec, hval1, hval2, hval3]

/-! ## JSON canonicalization (`canonicalize_app_data`, via `serde_json`)

`serde_json::to_vec` of the `CanonicalAppData` struct: compact JSON, fields
in declaration order, strings escaped bytewise (`"` and `\` escaped, the
named control escapes `\b \t \n \f \r`, other control bytes as `\u00xx`,
everything else emitted verbatim). -/

/-- Lowercase hex digit. -/
def hexDigit (n : Nat) : Nat := if n < 10 then 48 + n else 87 + n

/-- `serde_json`'s escaping of one byte of a string. -/
def escByte (b : Nat) : List Nat :=
  if b = 34 then [92, 34]
  else if b = 92 then [92, 92]
  else if b = 8 then [92, 98]
  else if b = 9 then [92, 116]
  else if b = 10 then [92, 110]
  else if b = 12 then [92, 102]
  else if b = 13 then [92, 114]
  else if b < 32 then [92, 117, 48, 48, hexDigit (b / 16), hexDigit (b % 16)]
  else [b]

def escBytes : List Nat → List Nat
  | [] => []
  | b :: rest => escByte b ++ escBytes rest

/-- A JSON string literal: quote, escaped content, quote. -/
def strLit (s : List Nat) : List Nat := 34 :: (escBytes s ++ [34])

/-- Decimal digits of a number (serde's integer serialization). -/
def decDigits (n : Nat) : List Nat := (Nat.toDigits 10 n).map Char.toNat

/-- JSON booleans. -/
def boolBytes : Bool → List Nat
  | true => ascii "true"
  | false => ascii "false"

/-- One serialized `HeaderEntry`: `{"name":"…","value":"…"}`. -/
def serHeaderEntry (e : HeaderEntry) : List Nat :=
  ascii "\x7b\"name\":\"" ++ escBytes e.name ++ 34 :: ascii ",\"value\":\"" ++
    escBytes e.value ++ [34, 125]

/-- A serialized JSON array body: entries joined by commas. -/
def serHeaderList : List HeaderEntry → List Nat
  | [] => []
  | [e] => serHeaderEntry e
  | e :: rest => serHeaderEntry e ++ 44 :: serHeaderList rest

/-- `canonicalize_app_data` from `prover/src/capture.rs`: the serde_json
serialization of `CanonicalAppData { status_code, reason, headers,
body_base64, body_truncated }`, where `headers` is the sorted header list
and `body_base64` the base64 of the body bytes. -/
def canonicalize_app_data (response : HttpResponse) (headers : List HeaderEntry) :
    List Nat :=
  ascii "\x7b\"status_code\":" ++ decDigits response.status_code ++
    ascii ",\"reason\":" ++ strLit response.reason ++
    ascii ",\"headers\":[" ++ serHeaderList headers ++
    ascii "],\"body_base64\":" ++ strLit (b64encode response.body) ++
    ascii ",\"body_truncated\":" ++ boolBytes response.body_truncated ++
    ascii "\x7d"

/-! ### Unique decodability of the string escaping -/

/-- Hex digit value (inverse of `hexDigit` on its range). -/
def hexVal (c : Nat) : Nat :=
  if 48 ≤ c ∧ c ≤ 57 then c - 48
  else if 97 ≤ c ∧ c ≤ 102 then c - 87
  else 0

/-- Inverse of the two-character escapes. -/
def unescByte (k : Nat) : Nat :=
  if k = 34 then 34 else if k = 92 then 92 else if k = 98 then 8
  else if k = 116 then 9 else if k = 110 then 10 else if k = 102 then 12
  else if k = 114 then 13 else 0

/-- Decode an escaped string up to its closing quote, returning the decoded
content and the remainder after the quote.  This is the decoding partner of
`escBytes`; its existence makes the escaping uniquely decodable. -/
def unesc : List Nat → Option (List Nat × List Nat)
  | [] => none
  | b :: rest =>
    if b = 34 then some ([], rest)
    else if b = 92 then
      match rest with
      | [] => none
      | k :: rest2 =>
        if k = 117 then
          match rest2 with
          | h1 :: h2 :: h3 :: h4 :: rest3 =>
            (unesc rest3).map (fun p =>
              ((hexVal h1 * 4096 + hexVal h2 * 256 + hexVal h3 * 16 + hexVal h4) ::
                p.1, p.2))
          | _ => none
        else (unesc rest2).map (fun p => (unescByte k :: p.1, p.2))
    else (unesc rest).map (fun p => (b :: p.1, p.2))
termination_by structural l => l

theorem hexVal_hexDigit : ∀ n, n < 16 → hexVal (hexDigit n) = n := by decide

theorem unesc_esc : ∀ (v s : List Nat), unesc (escBytes v ++ 34 :: s) = some (v, s)
  | [], s => by
    show unesc (34 :: s) = some ([], s)
    rw [unesc.eq_def]
    simp
  | b :: v', s => by
    have ih := unesc_esc v' s
    show unesc ((escByte b ++ escBytes v') ++ 34 :: s) = some (b :: v', s)
    rw [List.append_assoc]
    by_cases h1 : b = 34
    · subst h1
      show unesc (92 :: 34 :: (escBytes v' ++ 34 :: s)) = _
      rw [unesc.eq_def]; simp [unescByte, ih]
    by_cases h2 : b = 92
    · subst h2
      show unesc (92 :: 92 :: (escBytes v' ++ 34 :: s)) = _
      rw [unesc.eq_def]; simp [unescByte, ih]
    by_cases h3 : b = 8
    · subst h3
      show unesc (92 :: 98 :: (escBytes v' ++ 34 :: s)) = _
      rw [unesc.eq_def]; simp [unescByte, ih]
    by_cases h4 : b = 9
    · subst h4
      show unesc (92 :: 116 :: (escBytes v' ++ 34 :: s)) = _
      rw [unesc.eq_def]; simp [unescByte, ih]
    by_cases h5 : b = 10
    · subst h5
      show unesc (92 :: 110 :: (escBytes v' ++ 34 :: s)) = _
      rw [unesc.eq_def]; simp [unescByte, ih]
    by_cases h6 : b = 12
    · subst h6
      show unesc (92 :: 102 :: (escBytes v' ++ 34 :: s)) = _
      rw [unesc.eq_def]; simp [unescByte, ih]
    by_cases h7 : b = 13
    · subst h7
      show unesc (92 :: 114 :: (escBytes v' ++ 34 :: s)) = _
      rw [unesc.eq_def]; simp [unescByte, ih]
    by_cases h8 : b < 32
    · have hesc : escByte b = [92, 117, 48, 48, hexDigit (b / 16), hexDigit (b % 16)] := by
        simp [escByte, h1, h2, h3, h4, h5, h6, h7, h8]
      have hd1 : hexVal (hexDigit (b / 16)) = b / 16 := hexVal_hexDigit _ (by omega)
      have hd2 : hexVal (hexDigit (b % 16)) = b % 16 := hexVal_hexDigit _ (by omega)
      have hval : hexVal 48 * 4096 + hexVal 48 * 256 +
          hexVal (hexDigit (b / 16)) * 16 + hexVal (hexDigit (b % 16)) = b := by
        rw [hd1, hd2]
        simp [hexVal]
        omega
      rw [hesc, List.cons_append, List.cons_append, List.cons_append,
        List.cons_append, List.cons_append, List.cons_append, List.nil_append,
        unesc.eq_def]
      simp [ih, hval]
    · have hesc : escByte b = [b] := by
        simp [escByte, h1, h2, h3, h4, h5, h6, h7, h8]
      rw [hesc, List.cons_append, List.nil_append, unesc.eq_def]
      simp [h1, h2, ih]

/-- Unique decodability: equal escaped-and-terminated strings have equal
contents and equal remainders. -/
theorem escBytes_quote_inj {v v' s s' : List Nat}
    (h : escBytes v ++ 34 :: s = escBytes v' ++ 34 :: s') : v = v' ∧ s = s' := by
  have h1 := unesc_esc v s
  rw [h, unesc_esc v' s'] at h1
  obtain ⟨hv, hs⟩ := Prod.mk.injEq .. ▸ Option.some.inj h1
  exact ⟨hv.symm, hs.symm⟩

theorem serHeaderEntry_decomp (e : HeaderEntry) (t : List Nat) :
    serHeaderEntry e ++ t =
      ascii "\x7b\"name\":\"" ++ (escBytes e.name ++ 34 ::
        (ascii ",\"value\":\"" ++ (escBytes e.value ++ 34 :: 125 :: t))) := by
  simp [serHeaderEntry, List.append_assoc]

/-- Serialized entries followed by equal-or-different remainders are uniquely
decodable. -/
theorem serHeaderEntry_append_inj {e e' : HeaderEntry} {t t' : List Nat}
    (h : serHeaderEntry e ++ t = serHeaderEntry e' ++ t') : e = e' ∧ t = t' := by
  rw [serHeaderEntry_decomp, serHeaderEntry_decomp] at h
  obtain ⟨hname, hrest⟩ := escBytes_quote_inj (List.append_cancel_left h)
  obtain ⟨hvalue, htail⟩ := escBytes_quote_inj (List.append_cancel_left hrest)
  refine ⟨?_, (List.cons.inj htail).2⟩
  cases e; cases e'
  simp_all

theorem serHeaderEntry_ne_nil (e : HeaderEntry) : serHeaderEntry e ≠ [] := by
  have h := serHeaderEntry_decomp e []
  rw [List.append_nil] at h
  rw [h]
  simp [ascii]

theorem serHeaderList_inj : ∀ (l l' : List HeaderEntry),
    serHeaderList l = serHeaderList l' → l = l'
  | [], [], _ => rfl
  | [], [e'], h => absurd h.symm (by simpa [serHeaderList] using serHeaderEntry_ne_nil e')
  | [], e' :: r' :: t', h => by
    rw [show serHeaderList [] = [] from rfl,
      show serHeaderList (e' :: r' :: t') =
        serHeaderEntry e' ++ 44 :: serHeaderList (r' :: t') from rfl] at h
    exact absurd h.symm (by simp [serHeaderEntry_ne_nil e'])
  | [e], [], h => absurd h (by simpa [serHeaderList] using serHeaderEntry_ne_nil e)
  | e :: r :: t, [], h => by
    rw [show serHeaderList [] = [] from rfl,
      show serHeaderList (e :: r :: t) =
        serHeaderEntry e ++ 44 :: serHeaderList (r :: t) from rfl] at h
    exact absurd h (by simp [serHeaderEntry_ne_nil e])
  | [e], [e'], h => by
    rw [show serHeaderList [e] = serHeaderEntry e from rfl,
      show serHeaderList [e'] = serHeaderEntry e' from rfl,
      ← List.append_nil (serHeaderEntry e), ← List.append_nil (serHeaderEntry e')] at h
    rw [(serHeaderEntry_append_inj h).1]
  | [e], e' :: r' :: t', h => by
    rw [show serHeaderList [e] = serHeaderEntry e ++ [] from (List.append_nil _).symm,
      show serHeaderList (e' :: r' :: t') =
        serHeaderEntry e' ++ 44 :: serHeaderList (r' :: t') from rfl] at h
    exact absurd (serHeaderEntry_append_inj h).2 (by simp)
  | e :: r :: t, [e'], h => by
    rw [show serHeaderList [e'] = serHeaderEntry e' ++ [] from (List.append_nil _).symm,
      show serHeaderList (e :: r :: t) =
        serHeaderEntry e ++ 44 :: serHeaderList (r :: t) from rfl] at h
    exact absurd (serHeaderEntry_append_inj h).2 (by simp)
  | e :: r :: t, e' :: r' :: t', h => by
    rw [show serHeaderList (e :: r :: t) =
        serHeaderEntry e ++ 44 :: serHeaderList (r :: t) from rfl,
      show serHeaderList (e' :: r' :: t') =
        serHeaderEntry e' ++ 44 :: serHeaderList (r' :: t') from rfl] at h
    obtain ⟨hee, htt⟩ := serHeaderEntry_append_inj h
    rw [hee, serHeaderList_inj (r :: t) (r' :: t') (List.cons.inj htt).2]

/-! ## Sorting lemmas for C3 -/

/-- The strict companion of `nameLe`: smaller-or-equal name and different
name. -/
def nameLt (a b : HeaderEntry) : Prop := nameLe a b ∧ a.name ≠ b.name

instance : IsAntisymm HeaderEntry nameLt :=
  ⟨fun _ _ h1 h2 => absurd (lexLe_antisymm _ _ h1.1 h2.1) h1.2⟩

/-- Two permuted header lists with pairwise-distinct names have the same
stable sort. -/
theorem sortHeaders_perm_eq (l l' : List HeaderEntry) (hp : l.Perm l')
    (hnd : (l.map HeaderEntry.name).Nodup) : sortHeaders l = sortHeaders l' := by
  have hsorted : ∀ (m : List HeaderEntry), (m.map HeaderEntry.name).Nodup →
      List.Sorted nameLt (sortHeaders m) := by
    intro m hm
    have h1 : List.Sorted nameLe (sortHeaders m) := List.sorted_insertionSort nameLe m
    have hperm : (sortHeaders m).Perm m := List.perm_insertionSort nameLe m
    have h2 : ((sortHeaders m).map HeaderEntry.name).Nodup :=
      ((hperm.map HeaderEntry.name).nodup_iff).mpr hm
    have h3 : (sortHeaders m).Pairwise (fun a b => a.name ≠ b.name) :=
      List.pairwise_map.mp h2
    exact List.Pairwise.and h1 h3
  have hnd' : (l'.map HeaderEntry.name).Nodup :=
    ((hp.map HeaderEntry.name).nodup_iff).mp hnd
  exact List.eq_of_perm_of_sorted
    (((List.perm_insertionSort nameLe l).trans hp).trans
      (List.perm_insertionSort nameLe l').symm)
    (hsorted l hnd) (hsorted l' hnd')

theorem orderedInsert_nameLe_inj : ∀ (L L' : List HeaderEntry) (a b : HeaderEntry),
    a.name = b.name → L.map HeaderEntry.name = L'.map HeaderEntry.name →
    L.orderedInsert nameLe a = L'.orderedInsert nameLe b → a = b ∧ L = L'
  | [], [], a, b, _, _, h => ⟨(List.cons.inj h).1, rfl⟩
  | [], _ :: _, _, _, _, hm, _ => by simp at hm
  | _ :: _, [], _, _, _, hm, _ => by simp at hm
  | x :: xs, y :: ys, a, b, hab, hm, h => by
    obtain ⟨hxy, hm'⟩ := List.cons.inj (by simpa using hm)
    by_cases hle : nameLe a x
    · have hle' : nameLe b y := by unfold nameLe at hle ⊢; rw [← hxy, ← hab]; exact hle
      rw [List.orderedInsert, if_pos hle] at h
      rw [List.orderedInsert, if_pos hle'] at h
      obtain ⟨h1, h2⟩ := List.cons.inj h
      exact ⟨h1, h2⟩
    · have hle' : ¬nameLe b y := by unfold nameLe at hle ⊢; rw [← hxy, ← hab]; exact hle
      rw [List.orderedInsert, if_neg hle] at h
      rw [List.orderedInsert, if_neg hle'] at h
      obtain ⟨h1, h2⟩ := List.cons.inj h
      obtain ⟨hab', hLL⟩ := orderedInsert_nameLe_inj xs ys a b hab hm' h2
      exact ⟨hab', by rw [h1, hLL]⟩

/-- Name-preserving map fact: the names of the sorted list are the sorted
names. -/
theorem map_name_sortHeaders (l : List HeaderEntry) :
    (sortHeaders l).map HeaderEntry.name =
      (l.map HeaderEntry.name).insertionSort (fun n n' => lexLe n n' = true) :=
  List.map_insertionSort nameLe (fun n n' => lexLe n n' = true)
    HeaderEntry.name l (fun _ _ _ _ => Iff.rfl)

/-- The stable sort is injective on lists with (pointwise) equal names. -/
theorem sortHeaders_inj : ∀ (l l' : List HeaderEntry),
    l.map HeaderEntry.name = l'.map HeaderEntry.name →
    sortHeaders l = sortHeaders l' → l = l'
  | [], [], _, _ => rfl
  | [], _ :: _, hm, _ => by simp at hm
  | _ :: _, [], hm, _ => by simp at hm
  | a :: as, b :: bs, hm, h => by
    obtain ⟨hab, hm'⟩ := List.cons.inj (by simpa using hm)
    have hmaps : (sortHeaders as).map HeaderEntry.name =
        (sortHeaders bs).map HeaderEntry.name := by
      rw [map_name_sortHeaders, map_name_sortHeaders, hm']
    obtain ⟨h1, h2⟩ := orderedInsert_nameLe_inj (sortHeaders as) (sortHeaders bs)
      a b hab hmaps h
    rw [h1, sortHeaders_inj as bs hm' h2]

/-! ## C3: canonical app-data bytes and header order -/

theorem canonicalize_app_data_headers_inj (resp : HttpResponse)
    (hs hs' : List HeaderEntry)
    (h : canonicalize_app_data resp hs = canonicalize_app_data resp hs') :
    serHeaderList hs = serHeaderList hs' := by
  unfold canonicalize_app_data at h
  simp only [List.append_assoc] at h
  have h1 := List.append_cancel_left h
  have h2 := List.append_cancel_left h1
  have h3 := List.append_cancel_left h2
  have h4 := List.append_cancel_left h3
  have h5 := List.append_cancel_left h4
  exact List.append_cancel_right h5

/-- C3 (amended): for header-entry lists with pairwise-distinct names, the
canonical app-data bytes do not depend on the arrival order of the entries
(the sort by name erases it); with duplicate names the stable sort preserves
arrival order among equal names, so this is restricted to distinct names.
And the bytes always change when any header value changes (equal names
pointwise, different lists). -/
theorem canonicalize_app_data_header_order (resp : HttpResponse) :
    (∀ hs1 hs2 : List HeaderEntry, hs1.Perm hs2 →
      (hs1.map HeaderEntry.name).Nodup →
      canonicalize_app_data resp (sortHeaders hs1) =
        canonicalize_app_data resp (sortHeaders hs2)) ∧
    (∀ hs1 hs2 : List HeaderEntry,
      hs1.map HeaderEntry.name = hs2.map HeaderEntry.name → hs1 ≠ hs2 →
      canonicalize_app_data resp (sortHeaders hs1) ≠
        canonicalize_app_data resp (sortHeaders hs2)) := by
  constructor
  · intro hs1 hs2 hp hnd
    rw [sortHeaders_perm_eq hs1 hs2 hp hnd]
  · intro hs1 hs2 hm hne h
    exact hne (sortHeaders_inj hs1 hs2 hm
      (serHeaderList_inj _ _ (canonicalize_app_data_headers_inj resp _ _ h)))

/-- Sample response for the C3 witness. -/
def wResp : HttpResponse := ⟨ascii "HTTP/1.1", 200, ascii "OK", [], [], false⟩

/-- Witness for `canonicalize_app_data_header_order`: reordering two
distinct-name headers leaves the canonical bytes unchanged; changing a
header value changes them. -/
theorem canonicalize_app_data_header_order_witness :
    canonicalize_app_data wResp
        (sortHeaders [⟨ascii "a", ascii "1"⟩, ⟨ascii "b", ascii "2"⟩]) =
      canonicalize_app_data wResp
        (sortHeaders [⟨ascii "b", ascii "2"⟩, ⟨ascii "a", ascii "1"⟩]) ∧
    canonicalize_app_data wResp (sortHeaders [⟨ascii "a", ascii "1"⟩]) ≠
      canonicalize_app_data wResp (sortHeaders [⟨ascii "a", ascii "2"⟩]) :=
  ⟨(canonicalize_app_data_header_order wResp).1 _ _ (by decide) (by decide),
   (canonicalize_app_data_header_order wResp).2 _ _ (by decide) (by decide)⟩

/-- The canonical app-data bytes a capture of `raw` commits to (body cap
1024): `canonicalize_app_data(&response, &headers)` after
`parse_http_response`. -/
def appDataOf (raw : List Nat) : Option (List Nat) :=
  match parse_http_response raw 1024 with
  | .ok (resp, hs, _) => some (canonicalize_app_data resp hs)
  | .error _ => none

/-- The parsed (sorted) header entries of a capture of `raw`. -/
def entriesOf (raw : List Nat) : Option (List HeaderEntry) :=
  match parse_http_response raw 1024 with
  | .ok (_, hs, _) => some hs
  | .error _ => none

/-- Two wire images carrying the same set of header entries in different
arrival order. -/
def cexRawA : List Nat := ascii "HTTP/1.1 200 OK\r\nx-a: 1\r\nx-a: 2\r\n\r\n"

def cexRawB : List Nat := ascii "HTTP/1.1 200 OK\r\nx-a: 2\r\nx-a: 1\r\n\r\n"

set_option maxRecDepth 10000 in
/-- C3 counterexample: with duplicate header names the claim as stated
fails.  The two raw responses carry the same entries (a permutation —
`x-a: 1` and `x-a: 2`) in swapped wire order, yet the canonical app-data
bytes differ, because the stable sort keeps equal-name entries in arrival
order. -/
theorem canonicalize_app_data_order_cex :
    (entriesOf cexRawA =
        some [⟨ascii "x-a", ascii "1"⟩, ⟨ascii "x-a", ascii "2"⟩] ∧
      entriesOf cexRawB =
        some [⟨ascii "x-a", ascii "2"⟩, ⟨ascii "x-a", ascii "1"⟩] ∧
      List.Perm [(⟨ascii "x-a", ascii "1"⟩ : HeaderEntry), ⟨ascii "x-a", ascii "2"⟩]
        [⟨ascii "x-a", ascii "2"⟩, ⟨ascii "x-a", ascii "1"⟩]) ∧
    appDataOf cexRawA ≠ appDataOf cexRawB :=
  ⟨⟨by decide, by decide, by decide⟩, by decide⟩

/-! ## Statement evaluation (`prover/src/evaluate.rs`)

The external hash primitives (`sha2`, `blake3`) and the regex engine
(`regex::RegexBuilder`) are crates, not code of this repository; they enter
as function parameters.  `rx pattern case_sensitive` models
`RegexBuilder::new(pattern).case_insensitive(!case_sensitive).build()`
(result of compiling, or the compiler's error message). -/

/-- `StatementEvaluation` from `prover/src/evaluate.rs`. -/
structure StatementEvaluation where
  satisfied : Bool
  details : Option (List Nat)
deriving DecidableEq, Repr

/-- `CaptureRecord` from `prover/src/capture.rs`, restricted to the two
fields `evaluate` reads (`response` and the header map); `requested_url`,
`method`, `captured_at`, `tls` and the canonical byte strings never enter
evaluation. -/
structure CaptureRecord where
  response : HttpResponse
  headers : HeaderMap

/-- `compare_value` from `prover/src/evaluate.rs`. -/
def compare_value (actual expected : List Nat) (case_sensitive : Option Bool) : Bool :=
  if case_sensitive.getD false then decide (asciiTrim actual = asciiTrim expected)
  else eqIgnoreAsciiCase (asciiTrim actual) (asciiTrim expected)

/-- `hex_string` from `prover/src/evaluate.rs`: `{:02x}` per byte. -/
def hex_string : List Nat → List Nat
  | [] => []
  | b :: rest => hexDigit (b / 16 % 16) :: hexDigit (b % 16) :: hex_string rest

/-- `compute_hash` from `prover/src/evaluate.rs`. -/
def compute_hash (sha256 blake3 : List Nat → List Nat) (algo : HashAlgorithm)
    (data : List Nat) : List Nat :=
  match algo with
  | .sha256 => hex_string (sha256 data)
  | .blake3 => hex_string (blake3 data)

/-- `headers_as_text` from `prover/src/evaluate.rs`: `name: value` lines
joined by `\n`. -/
def headers_as_text : List HeaderEntry → List Nat
  | [] => []
  | [h] => h.name ++ 58 :: 32 :: h.value
  | h :: rest => (h.name ++ 58 :: 32 :: h.value) ++ 10 :: headers_as_text rest

/-- `regex_scope_text` from `prover/src/evaluate.rs` (`body_as_text`,
`String::from_utf8_lossy`, is the identity on the byte level). -/
def regex_scope_text (scope : RegexScope) (response : HttpResponse) : List Nat :=
  match scope with
  | .headers => headers_as_text response.headers
  | .body => response.body
  | .any => headers_as_text response.headers ++ 10 :: 10 :: response.body

/-- `build_regex` from `prover/src/evaluate.rs`: compile and prefix the
compiler's error with `invalid regex: `. -/
def build_regex (rx : List Nat → Bool → Except (List Nat) (List Nat → Bool))
    (pattern : List Nat) (case_sensitive : Bool) :
    Except (List Nat) (List Nat → Bool) :=
  (rx pattern case_sensitive).mapError (fun e => ascii "invalid regex: " ++ e)

/-- `evaluate` from `prover/src/evaluate.rs`.  The source's `_ =>`
fallback arm (`statement variant not yet supported`) is unreachable with
the variants the `Statement` enum currently declares. -/
def evaluate (sha256 blake3 : List Nat → List Nat)
    (rx : List Nat → Bool → Except (List Nat) (List Nat → Bool))
    (statement : Statement) (record : CaptureRecord) : StatementEvaluation :=
  match statement with
  | .headerPresent target =>
    ⟨mapContains (lowerBytes target) record.headers, none⟩
  | .headerAbsent target =>
    ⟨!mapContains (lowerBytes target) record.headers, none⟩
  | .headerEquals target expected case_sensitive =>
    let satisfied := match mapGet (lowerBytes target) record.headers with
      | none => false
      | some vals => vals.any (fun v => compare_value v expected case_sensitive)
    ⟨satisfied, none⟩
  | .hashEquals algorithm digest =>
    if record.response.body_truncated then
      ⟨false, some (ascii "response body truncated; hash unverifiable")⟩
    else
      let digestHex := compute_hash sha256 blake3 algorithm record.response.body
      ⟨eqIgnoreAsciiCase digestHex digest, some (ascii "calculated=" ++ digestHex)⟩
  | .regex pattern scope case_sensitive =>
    match build_regex rx pattern case_sensitive with
    | .ok re => ⟨re (regex_scope_text scope record.response), none⟩
    | .error err => ⟨false, some err⟩

/-! ## C4: hash:eq against truncated and complete bodies -/

/-- C4: against a record whose body was truncated, a `hash:eq` statement is
always unsatisfied with the truncation detail — the result does not depend
on the hash functions or on the supplied digest, so no digest is consulted;
against a complete body the hex digest of the exact body bytes is computed
and compared to the statement's digest ASCII-case-insensitively. -/
theorem evaluate_hash_eq_spec (sha256 blake3 : List Nat → List Nat)
    (rx : List Nat → Bool → Except (List Nat) (List Nat → Bool))
    (record : CaptureRecord) (algorithm : HashAlgorithm) (digest : List Nat) :
    (record.response.body_truncated = true →
      evaluate sha256 blake3 rx (.hashEquals algorithm digest) record =
        ⟨false, some (ascii "response body truncated; hash unverifiable")⟩) ∧
    (record.response.body_truncated = false →
      evaluate sha256 blake3 rx (.hashEquals algorithm digest) record =
        ⟨eqIgnoreAsciiCase
            (compute_hash sha256 blake3 algorithm record.response.body) digest,
          some (ascii "calculated=" ++
            compute_hash sha256 blake3 algorithm record.response.body)⟩ ∧
      ((evaluate sha256 blake3 rx (.hashEquals algorithm digest) record).satisfied =
          true ↔
        lowerBytes (compute_hash sha256 blake3 algorithm record.response.body) =
          lowerBytes digest)) := by
  constructor
  · intro htr
    simp [evaluate, htr]
  · intro htr
    constructor
    · simp [evaluate, htr]
    · simp [evaluate, htr, eqIgnoreAsciiCase]

/-- Witness for `evaluate_hash_eq_spec`: the source's own test
(`hash_equals_fails_when_truncated`) and its complete-body counterpart,
with a stand-in hash function. -/
theorem evaluate_hash_eq_spec_witness :
    evaluate (fun l => [l.length]) (fun l => [l.length])
        (fun _ _ => .error []) (.hashEquals .sha256 (ascii "deadbeef"))
        ⟨⟨ascii "HTTP/1.1", 200, ascii "OK", [], ascii "body", true⟩, []⟩ =
      ⟨false, some (ascii "response body truncated; hash unverifiable")⟩ ∧
    (evaluate (fun l => [l.length]) (fun l => [l.length])
        (fun _ _ => .error []) (.hashEquals .sha256 (ascii "04"))
        ⟨⟨ascii "HTTP/1.1", 200, ascii "OK", [], ascii "body", false⟩, []⟩).satisfied =
      true :=
  ⟨(evaluate_hash_eq_spec (fun l => [l.length]) (fun l => [l.length])
      (fun _ _ => .error []) ⟨⟨ascii "HTTP/1.1", 200, ascii "OK", [], ascii "body", true⟩, []⟩
      .sha256 (ascii "deadbeef")).1 (by decide),
   ((evaluate_hash_eq_spec (fun l => [l.length]) (fun l => [l.length])
      (fun _ _ => .error []) ⟨⟨ascii "HTTP/1.1", 200, ascii "OK", [], ascii "body", false⟩, []⟩
      .sha256 (ascii "04")).2 (by decide)).2.mpr (by decide)⟩

/-! ## C6: header:eq with the case-sensitivity flag unset -/

/-- C6: with `case_sensitive` unset, a `header:eq` statement is satisfied
exactly when the lower-cased target name is a key of the header map and some
value under it equals the expected value after trimming both sides and
comparing ASCII-case-insensitively. -/
theorem evaluate_header_eq_default (sha256 blake3 : List Nat → List Nat)
    (rx : List Nat → Bool → Except (List Nat) (List Nat → Bool))
    (target expected : List Nat) (record : CaptureRecord) :
    (evaluate sha256 blake3 rx (.headerEquals target expected none) record).satisfied =
        true ↔
      ∃ vals, mapGet (lowerBytes target) record.headers = some vals ∧
        ∃ v ∈ vals, lowerBytes (asciiTrim v) = lowerBytes (asciiTrim expected) := by
  unfold evaluate
  rcases hget : mapGet (lowerBytes target) record.headers with _ | vals <;>
    simp [hget, compare_value, eqIgnoreAsciiCase]

/-! ## Artifact model (`artifact/src/lib.rs`) -/

/-- `CommitmentAlgorithm` from `artifact/src/lib.rs`. -/
inductive CommitmentAlgorithm where
  | blake3
  | sha256
deriving DecidableEq, Repr

/-- `ArtifactValidationError` from `artifact/src/lib.rs`. -/
inductive ArtifactValidationError where
  | missingDomain
  | missingCertFingerprint
  | invalidBase64 (field : List Nat)
deriving DecidableEq, Repr

/-- `EncodedBlob` from `artifact/src/lib.rs`: a base64 string (its bytes);
the `str` field is the tuple struct's `.0`. -/
structure EncodedBlob where
  str : List Nat
deriving DecidableEq, Repr

def EncodedBlob.from_bytes (bytes : List Nat) : EncodedBlob :=
  ⟨b64encode bytes⟩

def EncodedBlob.ensure_base64 (b : EncodedBlob) (field : List Nat) :
    Except ArtifactValidationError Unit :=
  match b64decode b.str with
  | some _ => .ok ()
  | none => .error (.invalidBase64 field)

def EncodedBlob.decode (b : EncodedBlob) : Except ArtifactValidationError (List Nat) :=
  match b64decode b.str with
  | some v => .ok v
  | none => .error (.invalidBase64 (ascii "encoded blob"))

/-- `CommitmentWitness` from `artifact/src/lib.rs`. -/
structure CommitmentWitness where
  handshake : EncodedBlob
  app_data : EncodedBlob
deriving DecidableEq, Repr

/-- `CommitmentSet` from `artifact/src/lib.rs`. -/
structure CommitmentSet where
  algorithm : CommitmentAlgorithm
  handshake : EncodedBlob
  app_data : EncodedBlob
  witness : Option CommitmentWitness
deriving DecidableEq, Repr

def CommitmentSet.validate (cs : CommitmentSet) :
    Except ArtifactValidationError Unit := do
  cs.handshake.ensure_base64 (ascii "handshake commitment")
  cs.app_data.ensure_base64 (ascii "application-data commitment")
  match cs.witness with
  | some w => do
    w.handshake.ensure_base64 (ascii "handshake witness")
    w.app_data.ensure_base64 (ascii "app-data witness")
  | none => .ok ()

/-- `TlsProofContext` from `artifact/src/lib.rs`. -/
structure TlsProofContext where
  version : List Nat
  cipher : List Nat
  cert_fingerprints : List (List Nat)
  alpn : Option (List Nat)
deriving DecidableEq, Repr

def TlsProofContext.validate (t : TlsProofContext) :
    Except ArtifactValidationError Unit :=
  if t.cert_fingerprints = [] then .error .missingCertFingerprint else .ok ()

/-- `RedProofArtifact` from `artifact/src/lib.rs`.  `time_utc` (a `chrono`
timestamp) and `meta` (tool version plus a free-form annotation map) are not
read by validation or verification and are omitted from the embedding. -/
structure RedProofArtifact where
  version : List Nat
  domain : List Nat
  tls : TlsProofContext
  statement : Statement
  commitments : CommitmentSet
  proof : EncodedBlob
deriving DecidableEq, Repr

def RedProofArtifact.validate (a : RedProofArtifact) :
    Except ArtifactValidationError Unit :=
  if asciiTrim a.domain = [] then .error .missingDomain
  else do
    a.tls.validate
    a.commitments.validate
    a.proof.ensure_base64 (ascii "proof")

/-! ## Commitment builder (`prover/src/commit.rs`) -/

/-- `Transcript` from `prover/src/commit.rs`. -/
structure Transcript where
  handshake : List Nat
  app_data : List Nat
deriving DecidableEq, Repr

/-- `hash_bytes` from `prover/src/commit.rs` (identical to the verifier's
copy in `verifier/src/main.rs`): digest under the chosen algorithm,
base64-encoded into an `EncodedBlob`. -/
def hash_bytes (sha256 blake3 : List Nat → List Nat) (algo : CommitmentAlgorithm)
    (data : List Nat) : EncodedBlob :=
  match algo with
  | .blake3 => EncodedBlob.from_bytes (blake3 data)
  | .sha256 => EncodedBlob.from_bytes (sha256 data)

/-- `build_commitments` from `prover/src/commit.rs`. -/
def build_commitments (sha256 blake3 : List Nat → List Nat)
    (transcript : Transcript) (algorithm : CommitmentAlgorithm)
    (include_witness : Bool) : CommitmentSet :=
  { algorithm := algorithm,
    handshake := hash_bytes sha256 blake3 algorithm transcript.handshake,
    app_data := hash_bytes sha256 blake3 algorithm transcript.app_data,
    witness :=
      if include_witness then
        some ⟨EncodedBlob.from_bytes transcript.handshake,
              EncodedBlob.from_bytes transcript.app_data⟩
      else none }

/-! ## Verification engine (`verifier/src/main.rs`) -/

/-- The errors `verify_artifact` can fail with: a propagated structural
validation error (`artifact.validate()?` and the witness `decode()?` calls)
or the digest-mismatch bailout of `ensure_digest`, keyed by its
label. -/
inductive VerifyError where
  | validation (e : ArtifactValidationError)
  | digestMismatch (label : List Nat)
deriving DecidableEq, Repr

/-- `ensure_digest` from `verifier/src/main.rs`. -/
def ensure_digest (sha256 blake3 : List Nat → List Nat)
    (algorithm : CommitmentAlgorithm) (data : List Nat) (expected : EncodedBlob)
    (label : List Nat) : Except VerifyError Unit :=
  if (hash_bytes sha256 blake3 algorithm data).str = expected.str then .ok ()
  else .error (.digestMismatch label)

/-- `verify_artifact` from `verifier/src/main.rs` (the no-witness branch
prints a warning and succeeds; printing is not modelled). -/
def verify_artifact (sha256 blake3 : List Nat → List Nat)
    (artifact : RedProofArtifact) : Except VerifyError Unit :=
  match artifact.validate with
  | .error e => .error (.validation e)
  | .ok () =>
    match artifact.commitments.witness with
    | none => .ok ()
    | some witness =>
      match witness.handshake.decode with
      | .error e => .error (.validation e)
      | .ok handshake =>
        match witness.app_data.decode with
        | .error e => .error (.validation e)
        | .ok app_data => do
          ensure_digest sha256 blake3 artifact.commitments.algorithm handshake
            artifact.commitments.handshake (ascii "handshake")
          ensure_digest sha256 blake3 artifact.commitments.algorithm app_data
            artifact.commitments.app_data (ascii "app-data")

/-! ## C1: verification of freshly built commitments succeeds -/

/-- C1: an artifact whose commitment set is `build_commitments(t, alg,
include_witness = true)` — for any transcript `t` (any pair of byte strings)
and either algorithm — passes verification whenever its other fields are
structurally valid: the witness blobs decode back to the transcript bytes
and re-hashing them reproduces the stored digests, so both digest checks
succeed. -/
theorem verify_build_commitments (sha256 blake3 : List Nat → List Nat)
    (t : Transcript) (algorithm : CommitmentAlgorithm) (a : RedProofArtifact)
    (hh : ∀ b ∈ t.handshake, b < 256) (ha : ∀ b ∈ t.app_data, b < 256)
    (hc : a.commitments = build_commitments sha256 blake3 t algorithm true)
    (hv : a.validate = .ok ()) :
    verify_artifact sha256 blake3 a = .ok () := by
  have hd1 : (EncodedBlob.from_bytes t.handshake).decode = .ok t.handshake := by
    unfold EncodedBlob.decode EncodedBlob.from_bytes
    rw [b64decode_encode t.handshake hh]
  have hd2 : (EncodedBlob.from_bytes t.app_data).decode = .ok t.app_data := by
    unfold EncodedBlob.decode EncodedBlob.from_bytes
    rw [b64decode_encode t.app_data ha]
  unfold verify_artifact
  rw [hv, hc]
  simp [build_commitments, hd1, hd2, ensure_digest, bind, Except.bind]

/-- Stand-in for the external hash primitives in concrete witnesses; the
theorems hold for every function in this position. -/
def cexHash : List Nat → List Nat := fun l => l

def cexTranscript : Transcript := ⟨ascii "hs", ascii "ad"⟩

/-- A structurally valid artifact around freshly built commitments. -/
def cexArtifact : RedProofArtifact :=
  { version := ascii "1.0",
    domain := ascii "example.com",
    tls := ⟨ascii "TLS1.3", ascii "TLS_AES_128_GCM_SHA256",
            [ascii "sha256:deadbeef"], none⟩,
    statement := .headerAbsent (ascii "Strict-Transport-Security"),
    commitments := build_commitments cexHash cexHash cexTranscript .sha256 true,
    proof := EncodedBlob.from_bytes (ascii "proof") }

/-- Witness for `verify_build_commitments`. -/
theorem verify_build_commitments_witness :
    cexArtifact.validate = .ok () ∧
      verify_artifact cexHash cexHash cexArtifact = .ok () :=
  ⟨by decide,
   verify_build_commitments cexHash cexHash cexTranscript .sha256 cexArtifact
     (by decide) (by decide) rfl (by decide)⟩

/-! ## C2: witness digest mismatches are hard per-label failures -/

/-- C2 (amended): for an artifact with a witness whose blobs decode, a
handshake digest disagreement fails verification with the handshake-labelled
digest-mismatch error; when the handshake digest agrees, an app-data digest
disagreement fails with the app-data-labelled error (the first mismatch is
decisive). -/
theorem verify_artifact_digest_mismatch (sha256 blake3 : List Nat → List Nat)
    (a : RedProofArtifact) (w : CommitmentWitness) (hb ab : List Nat)
    (hw : a.commitments.witness = some w)
    (hv : a.validate = .ok ())
    (hdh : w.handshake.decode = .ok hb)
    (hda : w.app_data.decode = .ok ab) :
    ((hash_bytes sha256 blake3 a.commitments.algorithm hb).str ≠
        a.commitments.handshake.str →
      verify_artifact sha256 blake3 a =
        .error (.digestMismatch (ascii "handshake"))) ∧
    ((hash_bytes sha256 blake3 a.commitments.algorithm hb).str =
        a.commitments.handshake.str →
      (hash_bytes sha256 blake3 a.commitments.algorithm ab).str ≠
        a.commitments.app_data.str →
      verify_artifact sha256 blake3 a =
        .error (.digestMismatch (ascii "app-data"))) := by
  constructor
  · intro hmis
    unfold verify_artifact
    rw [hv, hw]
    simp [hdh, hda, ensure_digest, hmis, bind, Except.bind]
  · intro hok hmis
    unfold verify_artifact
    rw [hv, hw]
    simp [hdh, hda, ensure_digest, hok, hmis, bind, Except.bind]

/-- `cexArtifact` with the stored handshake digest replaced. -/
def cexTamperedHandshake : RedProofArtifact :=
  { cexArtifact with commitments :=
    { cexArtifact.commitments with
        handshake := EncodedBlob.from_bytes (ascii "XX") } }

/-- `cexArtifact` with the stored app-data digest replaced. -/
def cexTamperedAppData : RedProofArtifact :=
  { cexArtifact with commitments :=
    { cexArtifact.commitments with
        app_data := EncodedBlob.from_bytes (ascii "XX") } }

/-- Witness for `verify_artifact_digest_mismatch`: a handshake disagreement
reports the handshake label, an app-data disagreement the app-data label. -/
theorem verify_artifact_digest_mismatch_witness :
    verify_artifact cexHash cexHash cexTamperedHandshake =
        .error (.digestMismatch (ascii "handshake")) ∧
      verify_artifact cexHash cexHash cexTamperedAppData =
        .error (.digestMismatch (ascii "app-data")) :=
  ⟨(verify_artifact_digest_mismatch cexHash cexHash cexTamperedHandshake
      ⟨EncodedBlob.from_bytes (ascii "hs"), EncodedBlob.from_bytes (ascii "ad")⟩
      (ascii "hs") (ascii "ad") (by decide) (by decide) (by decide) (by decide)).1
    (by decide),
   (verify_artifact_digest_mismatch cexHash cexHash cexTamperedAppData
      ⟨EncodedBlob.from_bytes (ascii "hs"), EncodedBlob.from_bytes (ascii "ad")⟩
      (ascii "hs") (ascii "ad") (by decide) (by decide) (by decide) (by decide)).2
    (by decide) (by decide)⟩

/-- `cexArtifact` with one byte of the witness handshake blob flipped to a
byte outside the base64 alphabet. -/
def cexFlippedWitness : RedProofArtifact :=
  { cexArtifact with commitments :=
    { cexArtifact.commitments with
        witness := some ⟨⟨(b64encode (ascii "hs")).set 0 33⟩,
                         EncodedBlob.from_bytes (ascii "ad")⟩ } }

/-- C2 counterexample: flipping a single byte of the witness does NOT always
yield a digest-mismatch failure.  Here the verification of the original
artifact succeeds, the flipped blob differs from the original in exactly its
first byte, and verification of the flipped artifact fails during structural
validation with an invalid-base64 error — a hard failure, but not the
digest-mismatch error the claim promises. -/
theorem verify_artifact_flip_cex :
    verify_artifact cexHash cexHash cexArtifact = .ok () ∧
      (b64encode (ascii "hs")).set 0 33 ≠ b64encode (ascii "hs") ∧
      verify_artifact cexHash cexHash cexFlippedWitness =
        .error (.validation (.invalidBase64 (ascii "handshake witness"))) ∧
      verify_artifact cexHash cexHash cexFlippedWitness ≠
        .error (.digestMismatch (ascii "handshake")) ∧
      verify_artifact cexHash cexHash cexFlippedWitness ≠
        .error (.digestMismatch (ascii "app-data")) :=
  ⟨by decide, by decide, by decide, by decide, by decide⟩

/-! ## Quote parity: unescaped quotes as counted by the tokenizer -/

/-- The number of unescaped quote characters in a byte string, following the
quoting discipline of `tokenize`: a `\` inside quotes escapes the next
character, and a quote toggles the quoting state.  The two `Bool` arguments
are the initial `in_quotes` / `escaping` state. -/
def quoteCount : List Nat → Bool → Bool → Nat
  | [], _, _ => 0
  | c :: rest, q, e =>
    if e then quoteCount rest q false
    else if c = 92 ∧ q then quoteCount rest q true
    else if c = 34 then 1 + quoteCount rest (!q) false
    else quoteCount rest q false

/-- The `in_quotes` state after the `tokenize` loop is the initial state
XORed with the parity of the number of unescaped quotes consumed. -/
theorem foldl_tokStep_in_quotes : ∀ (s : List Nat) (st : TokState),
    (s.foldl tokStep st).in_quotes =
      xor (decide (quoteCount s st.in_quotes st.escaping % 2 = 1)) st.in_quotes := by
  intro s
  induction s with
  | nil => intro st; simp [quoteCount]
  | cons c rest ih =>
    intro st
    rw [List.foldl_cons, ih]
    by_cases he : st.escaping = true
    · have h1 : tokStep st c = { st with buf := st.buf ++ [c], escaping := false } := by
        simp [tokStep, he]
      have h2 : quoteCount (c :: rest) st.in_quotes st.escaping =
          quoteCount rest st.in_quotes false := by
        simp [quoteCount, he]
      rw [h1, h2]
    · have he' : st.escaping = false := by simpa using he
      rw [he']
      by_cases hbq : c = 92 ∧ st.in_quotes = true
      · have h1 : tokStep st c = { st with escaping := true } := by
          simp [tokStep, he', hbq]
        have h2 : quoteCount (c :: rest) st.in_quotes false =
            quoteCount rest st.in_quotes true := by
          simp [quoteCount, hbq]
        rw [h1, h2]
      · by_cases hq : c = 34
        · have h1 : tokStep st c = { st with in_quotes := !st.in_quotes } := by
            simp [tokStep, he', hbq, hq]
          have h2 : quoteCount (c :: rest) st.in_quotes false =
              1 + quoteCount rest (!st.in_quotes) false := by
            simp [quoteCount, hbq, hq]
          rw [h1, h2, he']
          dsimp only
          generalize quoteCount rest (!st.in_quotes) false = k
          rcases Nat.mod_two_eq_zero_or_one k with hk | hk <;>
            rw [Nat.add_mod, hk] <;> cases hv : st.in_quotes <;> simp [hk]
        · have h1 : (tokStep st c).in_quotes = st.in_quotes := by
            simp only [tokStep, he', hbq, hq, if_false, ite_false,
              Bool.false_eq_true]
            split <;> rfl
          have h1' : (tokStep st c).escaping = false := by
            simp only [tokStep, he', hbq, hq, if_false, ite_false,
              Bool.false_eq_true]
            split <;> rfl
          have h2 : quoteCount (c :: rest) st.in_quotes false =
              quoteCount rest st.in_quotes false := by
            simp [quoteCount, hbq, hq]
          rw [h1, h1', h2]

/-- C7: an expression with an odd number of unescaped quote characters (an
unterminated quoted field) is rejected by `parse_statement` with the
unbalanced-quotes error.  The count is taken over the trimmed expression,
exactly as the tokenizer consumes it; trimming only removes whitespace bytes
outside any quoted region, so it never changes the count. -/
theorem parse_statement_odd_quotes_unbalanced (input : List Nat)
    (hodd : quoteCount (asciiTrim input) false false % 2 = 1) :
    parse_statement input = .error .unbalancedQuotes := by
  have htok : tokenize input = .error .unbalancedQuotes := by
    unfold tokenize
    by_cases hemp : asciiTrim input = []
    · rw [hemp] at hodd; simp [quoteCount] at hodd
    · simp only [hemp, if_false, ite_false]
      have := foldl_tokStep_in_quotes (asciiTrim input) ⟨[], [], false, false⟩
      simp only [hodd] at this
      simp at this
      simp [this]
  unfold parse_statement
  rw [htok]
  rfl

/-- Witness for `parse_statement_odd_quotes_unbalanced`: the spec's own
scenario `header:absent:"Strict`. -/
theorem parse_statement_odd_quotes_unbalanced_witness :
    quoteCount (asciiTrim (ascii "header:absent:\"Strict")) false false % 2 = 1 ∧
      parse_statement (ascii "header:absent:\"Strict") = .error .unbalancedQuotes :=
  ⟨by decide,
   parse_statement_odd_quotes_unbalanced (ascii "header:absent:\"Strict") (by decide)⟩

/-! ## C8: the parser never produces a case-sensitive header equality -/

theorem parse_header_case_flag : ∀ (parts : List (List Nat)) (t e : List Nat)
    (c : Option Bool), parse_header parts = .ok (.headerEquals t e c) → c = none := by
  intro parts t e c h
  unfold parse_header at h
  rcases parts with _ | ⟨p0, rest⟩
  · exact absurd h (by simp)
  · simp only at h
    split at h
    · rcases rest with _ | ⟨p1, _ | _⟩ <;>
        simp only [bind, Except.bind] at h <;>
        [skip; split at h; skip] <;> simp_all
    · split at h
      · rcases rest with _ | ⟨p1, _ | _⟩ <;>
          simp only [bind, Except.bind] at h <;>
          [skip; split at h; skip] <;> simp_all
      · split at h
        · rcases rest with _ | ⟨p1, _ | ⟨p2, _ | _⟩⟩ <;>
            simp only [bind, Except.bind] at h <;> try simp_all
          · split at h
            · simp_all
            · split at h <;> simp_all
        · simp_all

theorem parse_hash_shape : ∀ (parts : List (List Nat)) (stmt : Statement),
    parse_hash parts = .ok stmt → ∃ a d, stmt = .hashEquals a d := by
  intro parts stmt h
  unfold parse_hash at h
  split at h
  · split at h
    · split at h
      · simp_all
      · simp only [bind, Except.bind] at h
        split at h
        · simp_all
        · exact ⟨_, _, (Except.ok.inj h).symm⟩
    · simp_all
  · simp_all

theorem parseRegexLoop_shape : ∀ (parts : List (List Nat)) (s : RegexScope)
    (b : Bool) (stmt : Statement), parseRegexLoop parts s b = .ok stmt →
      ∃ p sc cs, stmt = .regex p sc cs := by
  intro parts
  induction parts with
  | nil => intro s b stmt h; simp [parseRegexLoop] at h
  | cons p0 rest ih =>
    intro s b stmt h
    rcases rest with _ | ⟨p1, more⟩
    · unfold parseRegexLoop at h
      split at h
      · simp_all
      · exact ⟨_, _, _, (Except.ok.inj h).symm⟩
    · unfold parseRegexLoop at h
      split at h
      · simp only [bind, Except.bind] at h
        split at h
        · simp_all
        · exact ih _ _ _ h
      · split at h
        · simp only [bind, Except.bind] at h
          split at h
          · simp_all
          · exact ih _ _ _ h
        · split at h
          · simp only [bind, Except.bind] at h
            split at h
            · simp_all
            · exact ih _ _ _ h
          · split at h <;> simp_all

/-- C8: whenever `parse_statement` succeeds with a header-equality statement,
its `case_sensitive` field is `None`; no input reaches the case-sensitive
branch of header equality. -/
theorem parse_statement_header_eq_case_flag (input t e : List Nat)
    (c : Option Bool)
    (h : parse_statement input = .ok (.headerEquals t e c)) : c = none := by
  unfold parse_statement at h
  rcases htok : tokenize input with err | parts <;> rw [htok] at h
  · exact absurd h (by simp [bind, Except.bind])
  · simp only [bind, Except.bind] at h
    rcases parts with _ | ⟨p0, rest⟩
    · exact absurd h (by simp)
    · simp only at h
      split at h
      · exact parse_header_case_flag rest t e c h
      · split at h
        · obtain ⟨a, d, hsh⟩ := parse_hash_shape rest _ h
          exact absurd hsh (by simp)
        · split at h
          · unfold parse_regex at h
            split at h
            · simp_all
            · obtain ⟨p, sc, cs, hsh⟩ := parseRegexLoop_shape _ _ _ _ h
              exact absurd hsh (by simp)
          · simp_all

/-- Witness for `parse_statement_header_eq_case_flag`. -/
theorem parse_statement_header_eq_case_flag_witness :
    parse_statement (ascii "header:eq:Server:apache") =
        .ok (.headerEquals (ascii "Server") (ascii "apache") none) ∧
      (none : Option Bool) = none :=
  ⟨by decide,
   parse_statement_header_eq_case_flag (ascii "header:eq:Server:apache")
     (ascii "Server") (ascii "apache") none (by decide)⟩

end RedProof
